import Mathlib



/-!
Verification development for the io-model-demo echo servers
(`selectserverdemo.cpp`, `pollserverdemo.cpp`, `epollserverdemo.cpp`,
`epollETserverdemo.cpp`).

Each variant is a single-threaded reactor loop over a readiness API.  We give
a shallow embedding of the reactor state of each variant (the process's open
file descriptors, the watched set, and for select/poll the tracked `maxfd`),
with one transition per handler branch of the C dispatch loop.  File
descriptors are natural numbers; per POSIX, `accept`/`socket` return the
lowest-numbered unused descriptor, which appears as the `hlow` hypothesis on
accept transitions.  The process starts with descriptors 0,1,2 (stdio) open;
`initserver` therefore yields listening socket 3, and in the epoll variants
`epoll_create` yields descriptor 4.

Byte-level behaviour of the read/echo path is embedded separately: bytes are
naturals, a read chunk is a `List Nat`, and the echo write
`write(fd, buffer, strlen(buffer))` is modelled by taking the longest
NUL-free prefix of the (zero-initialized) buffer contents.
-/

/-- Models the downward rescan loop shared by selectserverdemo.cpp (lines
139-150) and pollserverdemo.cpp (lines 137-149):
`for (ii = start; ii > 0; ii--) { if (p(ii)) { result = ii; break; } }`,
returning `old` unchanged when no `ii` in `[1, start]` satisfies `p`. -/
def scanDownFrom (p : Nat → Bool) : Nat → Nat → Nat
  | 0, old => old
  | n + 1, old => if p (n + 1) then n + 1 else scanDownFrom p n old

/-! ## Select variant (selectserverdemo.cpp) -/

/-- Listening socket descriptor: `initserver` runs in a process whose open
descriptors are 0,1,2 (stdio), so `socket()` returns the lowest free
descriptor, 3. -/
def listenfd : Nat := 3

/-- Reactor state of selectserverdemo.cpp: the process's open descriptors,
the `fd_set set` of watched descriptors, and the tracked `maxfd`. -/
structure SelState where
  openFds : Finset Nat
  fdset : Finset Nat
  maxfd : Nat
deriving DecidableEq

/-- Initial state after lines 39-42: `FD_ZERO(&set); FD_SET(listensock,&set);
maxfd = listensock;` with stdio and the listening socket open. -/
def selInit : SelState := ⟨{0, 1, 2, 3}, {3}, 3⟩

/-- One handler-branch transition of the selectserverdemo.cpp dispatch loop.
`acceptOk` is lines 103-117 (`accept` succeeds: the kernel hands out the
lowest free descriptor `c`, `FD_SET(c,&set)`, `if (maxfd < c) maxfd = c`);
`acceptFail` is lines 105-109; `echo` is the `isize > 0` path (lines
154-156, registry state unchanged); `disconnect` is the `isize <= 0` path
(lines 130-151: `close`, `FD_CLR`, and the downward `maxfd` rescan when the
closed descriptor was the maximum).  Events fire only for watched
descriptors. -/
inductive SelStep : SelState → SelState → Prop where
  | acceptOk (s : SelState) (c : Nat) (hfree : c ∉ s.openFds)
      (hlow : ∀ j, j < c → j ∈ s.openFds) :
      SelStep s ⟨insert c s.openFds, insert c s.fdset, max s.maxfd c⟩
  | acceptFail (s : SelState) : SelStep s s
  | echo (s : SelState) (fd : Nat) (hfd : fd ∈ s.fdset) (hne : fd ≠ listenfd) :
      SelStep s s
  | disconnect (s : SelState) (fd : Nat) (hfd : fd ∈ s.fdset)
      (hne : fd ≠ listenfd) :
      SelStep s ⟨s.openFds.erase fd, s.fdset.erase fd,
        if fd = s.maxfd
        then scanDownFrom (fun ii => decide (ii ∈ s.fdset.erase fd)) s.maxfd s.maxfd
        else s.maxfd⟩

/-- Reachable reactor states of the select variant. -/
inductive SelReach : SelState → Prop where
  | init : SelReach selInit
  | step {s t : SelState} : SelReach s → SelStep s t → SelReach t

/-- Inductive invariant of the select reactor: stdio stays open, the watched
set contains the listener, consists of open descriptors ≥ 3, contains every
open descriptor ≥ 3, and `maxfd` is its greatest element. -/
def SelInv (s : SelState) : Prop :=
  (0 ∈ s.openFds ∧ 1 ∈ s.openFds ∧ 2 ∈ s.openFds) ∧
  listenfd ∈ s.fdset ∧
  s.fdset ⊆ s.openFds ∧
  (∀ fd ∈ s.openFds, 3 ≤ fd → fd ∈ s.fdset) ∧
  (∀ x ∈ s.fdset, 3 ≤ x) ∧
  s.maxfd ∈ s.fdset ∧
  (∀ x ∈ s.fdset, x ≤ s.maxfd)

/-! ## Poll variant (pollserverdemo.cpp) -/

/-- Capacity constant of pollserverdemo.cpp line 15: `#define MAXNFDS 1024`,
the length of `struct pollfd pfds[MAXNFDS]`. -/
def MAXNFDS : Nat := 1024

/-- Pointwise update of the `pfds[k].fd` array viewed as a map. -/
def updFd (f : Nat → Int) (k : Nat) (v : Int) : Nat → Int :=
  fun j => if j = k then v else f j

/-- Reactor state of pollserverdemo.cpp: open descriptors, the `fd` fields of
the `pfds` array (index `k` holds `pfds[k].fd`: `0` if never touched after
`memset`, `k` once registered, `-1` after close), and the tracked `maxfd`. -/
structure PollState where
  openFds : Finset Nat
  pfdsFd : Nat → Int
  maxfd : Nat

/-- Initial state after lines 45-53: `memset(pfds,0,...)`,
`pfds[listensock].fd = listensock`, `maxfd = listensock`. -/
def pollInit : PollState :=
  ⟨{0, 1, 2, 3}, fun k => if k = 3 then (3 : Int) else 0, 3⟩

/-- One handler-branch transition of the pollserverdemo.cpp dispatch loop.
`acceptOk` is lines 93-115 with the capacity guard `clientsock > MAXNFDS`
passed (register: `pfds[c].fd = c`, `if (maxfd < c) maxfd = c`);
`acceptReject` is lines 103-108 (over-capacity connection closed right after
`accept`, nothing registered); `disconnect` is lines 128-150 (`close`,
`pfds[fd].fd = -1`, downward rescan of `maxfd` stopping at the first entry
whose `fd` field is not `-1`).  Client events fire only for entries
registered at their own index (`pfds[fd].fd == fd`). -/
inductive PollStep : PollState → PollState → Prop where
  | acceptOk (s : PollState) (c : Nat) (hfree : c ∉ s.openFds)
      (hlow : ∀ j, j < c → j ∈ s.openFds) (hcap : ¬ MAXNFDS < c) :
      PollStep s ⟨insert c s.openFds, updFd s.pfdsFd c (c : Int), max s.maxfd c⟩
  | acceptReject (s : PollState) (c : Nat) (hfree : c ∉ s.openFds)
      (hlow : ∀ j, j < c → j ∈ s.openFds) (hcap : MAXNFDS < c) :
      PollStep s s
  | acceptFail (s : PollState) : PollStep s s
  | echo (s : PollState) (fd : Nat) (hreg : s.pfdsFd fd = (fd : Int))
      (h1 : 1 ≤ fd) (hne : fd ≠ listenfd) : PollStep s s
  | disconnect (s : PollState) (fd : Nat) (hreg : s.pfdsFd fd = (fd : Int))
      (h1 : 1 ≤ fd) (hne : fd ≠ listenfd) :
      PollStep s ⟨s.openFds.erase fd, updFd s.pfdsFd fd (-1),
        if fd = s.maxfd
        then scanDownFrom
          (fun ii => decide (updFd s.pfdsFd fd (-1) ii ≠ -1)) s.maxfd s.maxfd
        else s.maxfd⟩

/-- Reachable reactor states of the poll variant. -/
inductive PollReach : PollState → Prop where
  | init : PollReach pollInit
  | step {s t : PollState} : PollReach s → PollStep s t → PollReach t

/-- Inductive invariant of the poll reactor: stdio and the listener are open,
`pfds[3].fd = 3`, an index `k ≥ 1` is registered at itself iff it is an open
descriptor ≥ 3, every entry is `0`, its own index, or `-1`, there is no
never-registered (`0`) entry between the listener and `maxfd` (this is what
makes the downward rescan correct under lowest-free descriptor allocation),
and `maxfd` is the greatest registered index. -/
def PollInv (s : PollState) : Prop :=
  (0 ∈ s.openFds ∧ 1 ∈ s.openFds ∧ 2 ∈ s.openFds ∧ 3 ∈ s.openFds) ∧
  s.pfdsFd 3 = 3 ∧
  3 ≤ s.maxfd ∧
  s.pfdsFd s.maxfd = (s.maxfd : Int) ∧
  (∀ k : Nat, 1 ≤ k → (s.pfdsFd k = (k : Int) ↔ k ∈ s.openFds ∧ 3 ≤ k)) ∧
  (∀ k : Nat, s.pfdsFd k = 0 ∨ s.pfdsFd k = (k : Int) ∨ s.pfdsFd k = -1) ∧
  (∀ k : Nat, 3 ≤ k → k ≤ s.maxfd → s.pfdsFd k ≠ 0) ∧
  (∀ k : Nat, 1 ≤ k → s.pfdsFd k = (k : Int) → k ≤ s.maxfd)

/-! ## Level-triggered epoll variant (epollserverdemo.cpp) -/

/-- Event-array capacity of both epoll variants: `#define MAXEVENTS 1024`. -/
def MAXEVENTS : Nat := 1024

/-- Descriptor of the epoll instance: `epoll_create(1)` runs after
`initserver`, when 0,1,2 (stdio) and 3 (listener) are open, so it returns 4. -/
def epollfd : Nat := 4

/-- Reactor state of epollserverdemo.cpp: open descriptors and the epoll
interest list. -/
structure LtState where
  openFds : Finset Nat
  interest : Finset Nat
deriving DecidableEq

/-- Initial state after lines 59-69: stdio, listener and epoll instance are
open; `epoll_ctl(EPOLL_CTL_ADD, listensock)` with `EPOLLIN`. -/
def ltInit : LtState := ⟨{0, 1, 2, 3, 4}, {3}⟩

/-- One entry of the `events` array as consulted by the level-triggered
dispatch loop (only `data.fd` and the `EPOLLIN` bit are inspected,
lines 105 and 137). -/
structure LtEvent where
  fd : Nat
  epollin : Bool

/-- System calls issued by one arm of the level-triggered dispatch. -/
inductive LtAction where
  | acceptCall
  | readCall (fd : Nat)
  | writeCall (fd : Nat)
  | epollDel (fd : Nat)
  | closeCall (fd : Nat)
deriving DecidableEq

/-- Dispatch of one `events[i]` entry in epollserverdemo.cpp lines 102-162:
if `data.fd == listensock && (events & EPOLLIN)` accept (`ar` is the result
of `accept`, the lowest free descriptor on success) and register the client
with `EPOLL_CTL_ADD`; `else if (events & EPOLLIN)` read — `isize <= 0` means
`EPOLL_CTL_DEL` then `close` (lines 146-156), `isize > 0` means echo write
(lines 159-161); an entry whose events lack `EPOLLIN` matches neither branch
and nothing at all happens. -/
def ltDispatch (s : LtState) (e : LtEvent) (ar : Option Nat) (isize : Int) :
    LtState × List LtAction :=
  if e.fd = listenfd ∧ e.epollin = true then
    match ar with
    | none => (s, [LtAction.acceptCall])
    | some c => (⟨insert c s.openFds, insert c s.interest⟩, [LtAction.acceptCall])
  else if e.epollin = true then
    if isize ≤ 0 then
      (⟨s.openFds.erase e.fd, s.interest.erase e.fd⟩,
        [LtAction.readCall e.fd, LtAction.epollDel e.fd, LtAction.closeCall e.fd])
    else (s, [LtAction.readCall e.fd, LtAction.writeCall e.fd])
  else (s, [])

/-- One dispatch transition: the kernel reports only descriptors on the
interest list, and a successful `accept` returns the lowest free
descriptor. -/
inductive LtStep : LtState → LtState → Prop where
  | ev (s : LtState) (e : LtEvent) (ar : Option Nat) (isize : Int)
      (hfd : e.fd ∈ s.interest)
      (har : ∀ c, ar = some c → c ∉ s.openFds ∧ ∀ j, j < c → j ∈ s.openFds) :
      LtStep s (ltDispatch s e ar isize).1

/-- Reachable reactor states of the level-triggered epoll variant. -/
inductive LtReach : LtState → Prop where
  | init : LtReach ltInit
  | step {s t : LtState} : LtReach s → LtStep s t → LtReach t

/-- Inductive invariant of the level-triggered reactor: stdio and the epoll
instance stay open and are never watched, the interest list contains only
open descriptors, and every other open descriptor is on the interest
list. -/
def LtInv (s : LtState) : Prop :=
  (0 ∈ s.openFds ∧ 1 ∈ s.openFds ∧ 2 ∈ s.openFds ∧ 4 ∈ s.openFds) ∧
  (0 ∉ s.interest ∧ 1 ∉ s.interest ∧ 2 ∉ s.interest ∧ 4 ∉ s.interest) ∧
  s.interest ⊆ s.openFds ∧
  (∀ fd ∈ s.openFds, fd ≠ 0 → fd ≠ 1 → fd ≠ 2 → fd ≠ 4 → fd ∈ s.interest)

/-! ## Edge-triggered epoll variant (epollETserverdemo.cpp) -/

/-- Reactor state of epollETserverdemo.cpp: open descriptors, the epoll
interest list, and whether the process has terminated via the `return 1`
inside the client read loop (line 180). -/
structure EtState where
  openFds : Finset Nat
  interest : Finset Nat
  dead : Bool
deriving DecidableEq

/-- Initial state after lines 53-92: stdio, listener (made non-blocking) and
epoll instance open; listener registered with `EPOLLIN | EPOLLET`. -/
def etInit : EtState := ⟨{0, 1, 2, 3, 4}, {3}, false⟩

/-- One entry of the `events` array as consulted by the edge-triggered
dispatch loop: `data.fd` and the `EPOLLERR`, `EPOLLHUP`, `EPOLLIN` bits
(line 121). -/
structure EtEvent where
  fd : Nat
  err : Bool
  hup : Bool
  epollin : Bool

/-- How the drain loop of lines 169-191 ends on a client descriptor:
`eagain` (read returned -1 with EAGAIN/EWOULDBLOCK after echoing any data
read, line 175), `eof` (read returned 0: peer closed, line 182), or
`fatal` (read returned -1 with another errno: `return 1`, line 180). -/
inductive EtDrainEnd where
  | eagain
  | eof
  | fatal
deriving DecidableEq

/-- Dispatch of one `events[i]` entry in epollETserverdemo.cpp lines
119-192.  The error branch (lines 121-127: `EPOLLERR`, `EPOLLHUP`, or
missing `EPOLLIN`) closes the descriptor — whatever it is, the listener
included; closing removes it from the epoll interest list (the kernel does
this automatically; the code issues no `EPOLL_CTL_DEL`).  Otherwise the
listener event accepts and registers (lines 129-162), and a client event
runs the drain loop: `eagain` leaves all state intact, `eof` closes the
client (line 184), `fatal` terminates the process with exit status 1. -/
def etDispatch (s : EtState) (e : EtEvent) (ar : Option Nat)
    (dend : EtDrainEnd) : EtState :=
  if e.err = true ∨ e.hup = true ∨ ¬ e.epollin = true then
    ⟨s.openFds.erase e.fd, s.interest.erase e.fd, s.dead⟩
  else if e.fd = listenfd then
    match ar with
    | none => s
    | some c => ⟨insert c s.openFds, insert c s.interest, s.dead⟩
  else
    match dend with
    | EtDrainEnd.eagain => s
    | EtDrainEnd.eof => ⟨s.openFds.erase e.fd, s.interest.erase e.fd, s.dead⟩
    | EtDrainEnd.fatal => ⟨s.openFds, s.interest, true⟩

/-- One dispatch transition of the live process: the kernel reports only
watched descriptors, and `accept` returns the lowest free descriptor. -/
inductive EtStep : EtState → EtState → Prop where
  | ev (s : EtState) (e : EtEvent) (ar : Option Nat) (dend : EtDrainEnd)
      (hlive : s.dead = false)
      (hfd : e.fd ∈ s.interest)
      (har : ∀ c, ar = some c → c ∉ s.openFds ∧ ∀ j, j < c → j ∈ s.openFds) :
      EtStep s (etDispatch s e ar dend)

/-- Reachable reactor states of the edge-triggered epoll variant. -/
inductive EtReach : EtState → Prop where
  | init : EtReach etInit
  | step {s t : EtState} : EtReach s → EtStep s t → EtReach t

/-- Inductive invariant of the edge-triggered reactor, as for the
level-triggered one: stdio and the epoll instance stay open and unwatched,
interest is a set of open descriptors, and every other open descriptor is
watched. -/
def EtInv (s : EtState) : Prop :=
  (0 ∈ s.openFds ∧ 1 ∈ s.openFds ∧ 2 ∈ s.openFds ∧ 4 ∈ s.openFds) ∧
  (0 ∉ s.interest ∧ 1 ∉ s.interest ∧ 2 ∉ s.interest ∧ 4 ∉ s.interest) ∧
  s.interest ⊆ s.openFds ∧
  (∀ fd ∈ s.openFds, fd ≠ 0 → fd ≠ 1 → fd ≠ 2 → fd ≠ 4 → fd ∈ s.interest)

/-! ## Byte-level echo models -/

/-- Read-buffer size of the select, poll and level-triggered epoll handlers:
`char buffer[1024]`. -/
def LT_BUFSIZE : Nat := 1024

/-- Read-buffer size of the edge-triggered handler: `char buffer[5]`
(epollETserverdemo.cpp line 166). -/
def ET_BUFSIZE : Nat := 5

/-- Bytes echoed for one read chunk by the level-triggered handlers
(selectserverdemo.cpp lines 124-156, identical in pollserverdemo.cpp and
epollserverdemo.cpp): the buffer is `memset` to zero, `read` deposits the
chunk at its start, and `write(fd, buffer, strlen(buffer))` sends the bytes
up to the first NUL — i.e. the longest NUL-free prefix of the zero-padded
buffer.  Meaningful for chunks shorter than the buffer (a full buffer has
no terminating NUL and `strlen` reads past it). -/
def echoedOfChunk (bufSize : Nat) (chunk : List Nat) : List Nat :=
  (chunk ++ List.replicate (bufSize - chunk.length) 0).takeWhile (fun b => b != 0)

/-- Bytes sent by `write(fd, buffer, strlen(buffer))` given the current
5-byte buffer contents of the edge-triggered drain loop: defined only when
the buffer holds a NUL (otherwise `strlen` scans past the buffer —
undefined behaviour, modelled as `none`). -/
def etEchoChunk (buf : List Nat) : Option (List Nat) :=
  if 0 ∈ buf then some (buf.takeWhile (fun b => b != 0)) else none

/-- The drain loop of epollETserverdemo.cpp lines 169-191 on a client with
`pending` bytes buffered: each iteration reads `min 5 |pending|` bytes into
the buffer (overwriting its front, the tail keeps earlier contents — the
`memset` at line 167 runs once, before the loop), echoes
`strlen(buffer)` bytes, and repeats until a read would block.  Returns the
per-iteration (chunk read, bytes echoed) pairs. -/
def etDrainFuel : Nat → List Nat → List Nat → List (List Nat × Option (List Nat))
  | _, _, [] => []
  | 0, _, _ :: _ => []
  | fuel + 1, buf, a :: rest =>
    ((a :: rest).take ET_BUFSIZE,
      etEchoChunk ((a :: rest).take ET_BUFSIZE ++
        buf.drop ((a :: rest).take ET_BUFSIZE).length)) ::
    etDrainFuel fuel
      ((a :: rest).take ET_BUFSIZE ++ buf.drop ((a :: rest).take ET_BUFSIZE).length)
      ((a :: rest).drop ET_BUFSIZE)

/-- The drain loop applied with enough fuel for its pending bytes; one
iteration consumes at least one byte, so `pending.length` rounds always
suffice. -/
def etDrain (buf : List Nat) (pending : List Nat) :
    List (List Nat × Option (List Nat)) :=
  etDrainFuel pending.length buf pending

/-- Concatenation of the echoed chunks of a drain run, `none` if any echo
length was undefined. -/
def echoedJoin (l : List (List Nat × Option (List Nat))) : Option (List Nat) :=
  match l with
  | [] => some []
  | (_, oe) :: rest =>
    match oe, echoedJoin rest with
    | some e, some acc => some (e ++ acc)
    | _, _ => none

/-! ## Exit codes -/

/-- Ways the select, poll and level-triggered epoll `main` can return:
wrong argument count (`return -1`), `initserver` failure (`return -1`), or
the wait call returning an error, which `break`s out of the `while (1)`
loop and falls through to the final `return 0`. -/
inductive ExitReason where
  | badArgs
  | initFail
  | waitError
deriving DecidableEq

/-- Process exit status of selectserverdemo.cpp (lines 22, 30, 72 then
161). -/
def selectExitCode : ExitReason → Int
  | ExitReason.badArgs => -1
  | ExitReason.initFail => -1
  | ExitReason.waitError => 0

/-- Process exit status of pollserverdemo.cpp (lines 24, 32, 65 then 160). -/
def pollExitCode : ExitReason → Int
  | ExitReason.badArgs => -1
  | ExitReason.initFail => -1
  | ExitReason.waitError => 0

/-- Process exit status of epollserverdemo.cpp (lines 29, 37, 93 then 169). -/
def epollLtExitCode : ExitReason → Int
  | ExitReason.badArgs => -1
  | ExitReason.initFail => -1
  | ExitReason.waitError => 0

/-- Ways the edge-triggered `main` can return: additionally a non-EAGAIN
client read error (`return 1`, epollETserverdemo.cpp line 180). -/
inductive EtExitReason where
  | badArgs
  | initFail
  | waitError
  | clientReadError
deriving DecidableEq

/-- Process exit status of epollETserverdemo.cpp (lines 49, 57, 115 then
199, and 180). -/
def etExitCode : EtExitReason → Int
  | EtExitReason.badArgs => -1
  | EtExitReason.initFail => -1
  | EtExitReason.waitError => 0
  | EtExitReason.clientReadError => 1

/-! ## Capacity guard and dispatch ranges -/

/-- Fate of a freshly accepted descriptor in the poll variant's accept
branch (pollserverdemo.cpp lines 103-112): the guard is
`if (clientsock > MAXNFDS)`; on rejection the socket is closed at once,
otherwise `pfds[clientsock]` is written. -/
inductive PollAcceptFate where
  | rejectClose
  | registerAt (idx : Nat)
deriving DecidableEq

/-- The poll accept branch's capacity decision, verbatim from the guard. -/
def pollAcceptHandle (clientsock : Nat) : PollAcceptFate :=
  if MAXNFDS < clientsock then PollAcceptFate.rejectClose
  else PollAcceptFate.registerAt clientsock

/-- Array indices examined by the level-triggered dispatch loop
`for (int i = 0; i <= readyfds; i++)` (epollserverdemo.cpp line 102). -/
def ltLoopIndices (readyfds : Nat) : List Nat :=
  List.range (readyfds + 1)

/-- Array indices examined by the edge-triggered dispatch loop
`for (int i = 0; i < readyfds; i++)` (epollETserverdemo.cpp line 119). -/
def etLoopIndices (readyfds : Nat) : List Nat :=
  List.range readyfds

/-- Entries of the `events` array actually filled by an `epoll_wait` call
that returned `readyfds`. -/
def reportIndices (readyfds : Nat) : List Nat :=
  List.range readyfds

/-! ## Accept-path setup actions (trigger mode and non-blocking) -/

/-- Interest flags passed to `epoll_ctl`/registered in a watch structure. -/
structure EvInterest where
  epollin : Bool
  epollet : Bool
deriving DecidableEq

/-- Registration-relevant statements executed on the listener at startup or
on a fresh client socket inside an accept branch, in program order. -/
inductive SetupAction where
  | setNonblocking
  | fdSetAdd
  | pfdsRegister
  | epollAdd (i : EvInterest)
  | updateMaxfd
deriving DecidableEq

/-- Listener registration of selectserverdemo.cpp lines 41-42. -/
def selectListenerSetup : List SetupAction :=
  [SetupAction.fdSetAdd]

/-- Client-socket statements of the select accept branch, lines 114-117. -/
def selectAcceptActions : List SetupAction :=
  [SetupAction.fdSetAdd, SetupAction.updateMaxfd]

/-- Listener registration of pollserverdemo.cpp lines 49-51. -/
def pollListenerSetup : List SetupAction :=
  [SetupAction.pfdsRegister]

/-- Client-socket statements of the poll accept branch (within capacity),
lines 111-115. -/
def pollAcceptActions : List SetupAction :=
  [SetupAction.pfdsRegister, SetupAction.updateMaxfd]

/-- Interest flags the level-triggered variant uses for its listener
(epollserverdemo.cpp line 62: `EPOLLIN`). -/
def ltListenerFlags : EvInterest := ⟨true, false⟩

/-- Interest flags the level-triggered variant uses for a client (line 132:
`EPOLLIN`). -/
def ltClientFlags : EvInterest := ⟨true, false⟩

/-- Listener registration of epollserverdemo.cpp lines 59-69 (no
`set_nonblocking` anywhere in this variant). -/
def ltListenerSetup : List SetupAction :=
  [SetupAction.epollAdd ltListenerFlags]

/-- Client-socket statements of the level-triggered accept branch, lines
130-133. -/
def ltAcceptActions : List SetupAction :=
  [SetupAction.epollAdd ltClientFlags]

/-- Interest flags the edge-triggered variant uses for its listener
(epollETserverdemo.cpp line 85: `EPOLLIN | EPOLLET`). -/
def etListenerFlags : EvInterest := ⟨true, true⟩

/-- Interest flags the edge-triggered variant uses for a client (line 158:
`EPOLLIN | EPOLLET`). -/
def etClientFlags : EvInterest := ⟨true, true⟩

/-- Listener setup of epollETserverdemo.cpp lines 61-92:
`set_nonblocking(listensock)` then `EPOLL_CTL_ADD` with
`EPOLLIN | EPOLLET`. -/
def etListenerSetup : List SetupAction :=
  [SetupAction.setNonblocking, SetupAction.epollAdd etListenerFlags]

/-- Client-socket statements of the edge-triggered accept branch, lines
154-159: `set_nonblocking(clientsock)` then `EPOLL_CTL_ADD` with
`EPOLLIN | EPOLLET`. -/
def etAcceptActions : List SetupAction :=
  [SetupAction.setNonblocking, SetupAction.epollAdd etClientFlags]

/-! ## Concrete reachable states used by witnesses -/

/-- Select state after one accepted client (descriptor 4). -/
def selW1 : SelState := ⟨insert 4 {0, 1, 2, 3}, insert 4 {3}, max 3 4⟩

/-- Level-triggered state after one accepted client (descriptor 5). -/
def ltW1 : LtState := ⟨insert 5 {0, 1, 2, 3, 4}, insert 5 {3}⟩

/-- Edge-triggered state after one accepted client (descriptor 5). -/
def etW : EtState := ⟨insert 5 {0, 1, 2, 3, 4}, insert 5 {3}, false⟩

/-- When some index in `[1, n]` satisfies `p`, the downward scan returns the
greatest such index. -/
theorem scanDownFrom_spec (p : Nat → Bool) :
    ∀ (n old x : Nat), 1 ≤ x → x ≤ n → p x = true →
      p (scanDownFrom p n old) = true ∧ 1 ≤ scanDownFrom p n old ∧
        scanDownFrom p n old ≤ n ∧
        ∀ y, p y = true → y ≤ n → y ≤ scanDownFrom p n old := by
  intro n
  induction n with
  | zero => intro old x hx1 hxn _; omega
  | succ k ih =>
    intro old x hx1 hxn hpx
    by_cases hp : p (k + 1) = true
    · have hstep : scanDownFrom p (k + 1) old = k + 1 := by
        simp [scanDownFrom, hp]
      rw [hstep]
      exact ⟨hp, by omega, le_rfl, fun y _ hy => hy⟩
    · have hx : x ≤ k := by
        rcases Nat.lt_or_ge x (k + 1) with h | h
        · omega
        · exfalso; have : x = k + 1 := by omega
          rw [this] at hpx; exact hp hpx
      have hrec := ih old x hx1 hx hpx
      have hstep : scanDownFrom p (k + 1) old = scanDownFrom p k old := by
        simp [scanDownFrom, hp]
      refine ⟨?_, ?_, ?_, ?_⟩
      · rw [hstep]; exact hrec.1
      · rw [hstep]; exact hrec.2.1
      · rw [hstep]; omega
      · intro y hpy hyn
        rw [hstep]
        rcases Nat.lt_or_ge y (k + 1) with h | h
        · exact hrec.2.2.2 y hpy (by omega)
        · exfalso; have : y = k + 1 := by omega
          rw [this] at hpy; exact hp hpy

theorem selInv_init : SelInv selInit := by
  refine ⟨⟨?_, ?_, ?_⟩, ?_, ?_, ?_, ?_, ?_, ?_⟩ <;> decide

theorem selInv_step {s t : SelState} (hinv : SelInv s) (hstep : SelStep s t) :
    SelInv t := by
  obtain ⟨⟨h0, h1, h2⟩, hlis, hsub, hcli, hge3, hmax, hbound⟩ := hinv
  cases hstep with
  | acceptFail => exact ⟨⟨h0, h1, h2⟩, hlis, hsub, hcli, hge3, hmax, hbound⟩
  | echo fd hfd hne => exact ⟨⟨h0, h1, h2⟩, hlis, hsub, hcli, hge3, hmax, hbound⟩
  | acceptOk c hfree hlow =>
    have hc3 : 3 ≤ c := by
      by_contra hlt
      interval_cases c <;> exact hfree (by assumption)
    refine ⟨⟨?_, ?_, ?_⟩, ?_, ?_, ?_, ?_, ?_, ?_⟩
    · exact Finset.mem_insert_of_mem h0
    · exact Finset.mem_insert_of_mem h1
    · exact Finset.mem_insert_of_mem h2
    · exact Finset.mem_insert_of_mem hlis
    · intro x hx
      rcases Finset.mem_insert.mp hx with rfl | hx
      · exact Finset.mem_insert_self _ _
      · exact Finset.mem_insert_of_mem (hsub hx)
    · intro fd hfd hfd3
      rcases Finset.mem_insert.mp hfd with rfl | hfd
      · exact Finset.mem_insert_self _ _
      · exact Finset.mem_insert_of_mem (hcli fd hfd hfd3)
    · intro x hx
      rcases Finset.mem_insert.mp hx with rfl | hx
      · exact hc3
      · exact hge3 x hx
    · rcases max_choice s.maxfd c with hm | hm <;> rw [hm]
      · exact Finset.mem_insert_of_mem hmax
      · exact Finset.mem_insert_self _ _
    · intro x hx
      rcases Finset.mem_insert.mp hx with rfl | hx
      · exact le_max_right _ _
      · exact le_trans (hbound x hx) (le_max_left _ _)
  | disconnect fd hfd hne =>
    have hl : listenfd ∈ s.fdset.erase fd :=
      Finset.mem_erase.mpr ⟨fun h => hne h.symm, hlis⟩
    have herase_sub : ∀ x ∈ s.fdset.erase fd, x ∈ s.fdset := fun x hx =>
      (Finset.mem_erase.mp hx).2
    refine ⟨⟨?_, ?_, ?_⟩, hl, ?_, ?_, ?_, ?_, ?_⟩
    · exact Finset.mem_erase.mpr ⟨by have := hge3 fd hfd; omega, h0⟩
    · exact Finset.mem_erase.mpr ⟨by have := hge3 fd hfd; omega, h1⟩
    · exact Finset.mem_erase.mpr ⟨by have := hge3 fd hfd; omega, h2⟩
    · intro x hx
      have hx' := Finset.mem_erase.mp hx
      exact Finset.mem_erase.mpr ⟨hx'.1, hsub hx'.2⟩
    · intro x hx hx3
      have hx' := Finset.mem_erase.mp hx
      exact Finset.mem_erase.mpr ⟨hx'.1, hcli x hx'.2 hx3⟩
    · intro x hx; exact hge3 x (herase_sub x hx)
    · by_cases hm : fd = s.maxfd
      · rw [if_pos hm]
        have hscan := scanDownFrom_spec
          (fun ii => decide (ii ∈ s.fdset.erase fd)) s.maxfd s.maxfd listenfd
          (by decide) (hbound listenfd hlis) (decide_eq_true hl)
        exact of_decide_eq_true hscan.1
      · rw [if_neg hm]
        exact Finset.mem_erase.mpr ⟨fun h => hm h.symm, hmax⟩
    · by_cases hm : fd = s.maxfd
      · rw [if_pos hm]
        intro x hx
        have hscan := scanDownFrom_spec
          (fun ii => decide (ii ∈ s.fdset.erase fd)) s.maxfd s.maxfd listenfd
          (by decide) (hbound listenfd hlis) (decide_eq_true hl)
        exact hscan.2.2.2 x (decide_eq_true hx) (hbound x (herase_sub x hx))
      · rw [if_neg hm]
        intro x hx; exact hbound x (herase_sub x hx)

theorem selReach_inv {s : SelState} (h : SelReach s) : SelInv s := by
  induction h with
  | init => exact selInv_init
  | step _ hstep ih => exact selInv_step ih hstep

theorem updFd_self (f : Nat → Int) (k : Nat) (v : Int) : updFd f k v k = v := by
  simp [updFd]

theorem updFd_ne (f : Nat → Int) (k : Nat) (v : Int) (j : Nat) (h : j ≠ k) :
    updFd f k v j = f j := by
  simp [updFd, h]

theorem pollInv_init : PollInv pollInit := by
  have hfd : pollInit.pfdsFd = fun k => if k = 3 then (3 : Int) else 0 := rfl
  have hmx : pollInit.maxfd = 3 := rfl
  refine ⟨⟨?_, ?_, ?_, ?_⟩, ?_, ?_, ?_, ?_, ?_, ?_, ?_⟩
  · decide
  · decide
  · decide
  · decide
  · rw [hfd]; simp
  · rw [hmx]
  · rw [hfd, hmx]; simp
  · intro k hk
    rw [hfd]
    by_cases h : k = 3
    · subst h
      simp only [if_pos rfl]
      constructor
      · intro _; exact ⟨by decide, le_rfl⟩
      · intro _; rfl
    · simp only [if_neg h]
      constructor
      · intro h0; exfalso; omega
      · rintro ⟨hmem, h3⟩
        exfalso
        have : k = 0 ∨ k = 1 ∨ k = 2 ∨ k = 3 := by
          simpa [pollInit, Finset.mem_insert] using hmem
        omega
  · intro k
    rw [hfd]
    by_cases h : k = 3
    · subst h; right; left; simp
    · left; simp [h]
  · intro k h3 hle
    rw [hmx] at hle
    have : k = 3 := by omega
    subst this
    rw [hfd]; simp
  · intro k h1 hk
    rw [hfd] at hk
    rw [hmx]
    by_cases h : k = 3
    · omega
    · simp only [if_neg h] at hk; omega

/-- Specification of the `maxfd` rescan of pollserverdemo.cpp lines 140-147,
executed right after `pfds[fd].fd = -1`: under the poll invariant's
no-gaps property, the scan lands on the greatest index still registered at
itself. -/
theorem poll_scan_result (f : Nat → Int) (maxfd fd : Nat)
    (hil : f 3 = 3) (h3max : 3 ≤ maxfd)
    (hvals : ∀ k : Nat, f k = 0 ∨ f k = (k : Int) ∨ f k = -1)
    (hgaps : ∀ k : Nat, 3 ≤ k → k ≤ maxfd → f k ≠ 0)
    (hfd3 : fd ≠ 3) :
    updFd f fd (-1)
        (scanDownFrom (fun ii => decide (updFd f fd (-1) ii ≠ -1)) maxfd maxfd)
      = ((scanDownFrom (fun ii => decide (updFd f fd (-1) ii ≠ -1)) maxfd maxfd : Nat) : Int) ∧
    3 ≤ scanDownFrom (fun ii => decide (updFd f fd (-1) ii ≠ -1)) maxfd maxfd ∧
    scanDownFrom (fun ii => decide (updFd f fd (-1) ii ≠ -1)) maxfd maxfd ≤ maxfd ∧
    ∀ y : Nat, updFd f fd (-1) y ≠ -1 → y ≤ maxfd →
      y ≤ scanDownFrom (fun ii => decide (updFd f fd (-1) ii ≠ -1)) maxfd maxfd := by
  set g := updFd f fd (-1) with hg
  set r := scanDownFrom (fun ii => decide (g ii ≠ -1)) maxfd maxfd with hr
  have h3fd : (3 : Nat) ≠ fd := fun h => hfd3 h.symm
  have hg3 : g 3 = 3 := by
    rw [hg, updFd_ne _ _ _ _ h3fd, hil]
  have hp3 : decide (g 3 ≠ -1) = true := decide_eq_true (by rw [hg3]; omega)
  have hscan := scanDownFrom_spec (fun ii => decide (g ii ≠ -1)) maxfd maxfd 3
    (by omega) h3max hp3
  have hpr : g r ≠ -1 := of_decide_eq_true hscan.1
  have hrle : r ≤ maxfd := hscan.2.2.1
  have hmaxy := hscan.2.2.2
  have h3r : 3 ≤ r := hmaxy 3 hp3 h3max
  have hrfd : r ≠ fd := by
    intro h; apply hpr; rw [h, hg, updFd_self]
  have hgr : g r = f r := by rw [hg, updFd_ne _ _ _ _ hrfd]
  have hfr : f r = (r : Int) := by
    rcases hvals r with h | h | h
    · exact absurd h (hgaps r h3r hrle)
    · exact h
    · rw [hgr] at hpr; exact absurd h hpr
  refine ⟨by rw [hgr, hfr], h3r, hrle, ?_⟩
  intro y hy hyle
  exact hmaxy y (decide_eq_true hy) hyle

theorem pollInv_step {s t : PollState} (hinv : PollInv s)
    (hstep : PollStep s t) : PollInv t := by
  obtain ⟨⟨h0, h1, h2, h3⟩, hil, h3max, hmax, hiff, hvals, hgaps, hbound⟩ := hinv
  cases hstep with
  | acceptReject c hfree hlow hcap =>
    exact ⟨⟨h0, h1, h2, h3⟩, hil, h3max, hmax, hiff, hvals, hgaps, hbound⟩
  | acceptFail =>
    exact ⟨⟨h0, h1, h2, h3⟩, hil, h3max, hmax, hiff, hvals, hgaps, hbound⟩
  | echo fd hreg hfd1 hne =>
    exact ⟨⟨h0, h1, h2, h3⟩, hil, h3max, hmax, hiff, hvals, hgaps, hbound⟩
  | acceptOk c hfree hlow hcap =>
    have hc4 : 4 ≤ c := by
      by_contra hlt
      interval_cases c <;> exact hfree (by assumption)
    have hmaxopen : s.maxfd ∈ s.openFds :=
      ((hiff s.maxfd (by omega)).mp hmax).1
    have hmaxne : s.maxfd ≠ c := fun h => hfree (h ▸ hmaxopen)
    refine ⟨⟨?_, ?_, ?_, ?_⟩, ?_, ?_, ?_, ?_, ?_, ?_, ?_⟩ <;> dsimp only
    · exact Finset.mem_insert_of_mem h0
    · exact Finset.mem_insert_of_mem h1
    · exact Finset.mem_insert_of_mem h2
    · exact Finset.mem_insert_of_mem h3
    · rw [updFd_ne _ _ _ _ (show (3 : Nat) ≠ c by omega)]; exact hil
    · exact le_trans h3max (le_max_left _ _)
    · rcases max_choice s.maxfd c with hm | hm <;> rw [hm]
      · rw [updFd_ne _ _ _ _ hmaxne]; exact hmax
      · rw [updFd_self]
    · intro k hk1
      by_cases hkc : k = c
      · subst hkc
        rw [updFd_self]
        constructor
        · intro _; exact ⟨Finset.mem_insert_self _ _, by omega⟩
        · intro _; rfl
      · rw [updFd_ne _ _ _ _ hkc]
        rw [hiff k hk1]
        constructor
        · rintro ⟨hmem, hk3⟩; exact ⟨Finset.mem_insert_of_mem hmem, hk3⟩
        · rintro ⟨hmem, hk3⟩
          rcases Finset.mem_insert.mp hmem with rfl | hmem
          · exact absurd rfl hkc
          · exact ⟨hmem, hk3⟩
    · intro k
      by_cases hkc : k = c
      · subst hkc; right; left; exact updFd_self _ _ _
      · rw [updFd_ne _ _ _ _ hkc]; exact hvals k
    · intro k hk3 hkle
      by_cases hkc : k = c
      · subst hkc; rw [updFd_self]; omega
      · rw [updFd_ne _ _ _ _ hkc]
        rcases le_or_lt k s.maxfd with hk | hk
        · exact hgaps k hk3 hk
        · have hkc' : k < c := by
            rcases max_choice s.maxfd c with hm | hm <;> rw [hm] at hkle <;> omega
          have hkop := hlow k hkc'
          have : s.pfdsFd k = (k : Int) := (hiff k (by omega)).mpr ⟨hkop, hk3⟩
          rw [this]
          omega
    · intro k hk1 hk
      by_cases hkc : k = c
      · subst hkc; exact le_max_right _ _
      · rw [updFd_ne _ _ _ _ hkc] at hk
        exact le_trans (hbound k hk1 hk) (le_max_left _ _)
  | disconnect fd hreg hfd1 hne =>
    have hfo := (hiff fd hfd1).mp hreg
    have hfd4 : 4 ≤ fd := by
      have h' := hfo.2
      rcases Nat.lt_or_ge fd 4 with h | h
      · exfalso; exact hne (by unfold listenfd; omega)
      · exact h
    have hfdne3 : fd ≠ 3 := by omega
    refine ⟨⟨?_, ?_, ?_, ?_⟩, ?_, ?_, ?_, ?_, ?_, ?_, ?_⟩ <;> dsimp only
    · exact Finset.mem_erase.mpr ⟨by omega, h0⟩
    · exact Finset.mem_erase.mpr ⟨by omega, h1⟩
    · exact Finset.mem_erase.mpr ⟨by omega, h2⟩
    · exact Finset.mem_erase.mpr ⟨by omega, h3⟩
    · rw [updFd_ne _ _ _ _ (show (3 : Nat) ≠ fd by omega)]; exact hil
    · -- 3 ≤ new maxfd
      by_cases hm : fd = s.maxfd
      · rw [if_pos hm]
        exact (poll_scan_result s.pfdsFd s.maxfd fd hil h3max hvals hgaps hfdne3).2.1
      · rw [if_neg hm]; exact h3max
    · -- new maxfd still registered at itself
      by_cases hm : fd = s.maxfd
      · rw [if_pos hm]
        exact (poll_scan_result s.pfdsFd s.maxfd fd hil h3max hvals hgaps hfdne3).1
      · rw [if_neg hm]
        rw [updFd_ne _ _ _ _ (show s.maxfd ≠ fd from fun h => hm h.symm)]
        exact hmax
    · -- registered-at-itself iff open-and-≥3
      intro k hk1
      by_cases hkf : k = fd
      · subst hkf
        rw [updFd_self]
        constructor
        · intro h; exfalso; omega
        · rintro ⟨hmem, -⟩
          exact absurd rfl (Finset.mem_erase.mp hmem).1
      · rw [updFd_ne _ _ _ _ hkf]
        rw [hiff k hk1]
        constructor
        · rintro ⟨hmem, hk3⟩
          exact ⟨Finset.mem_erase.mpr ⟨hkf, hmem⟩, hk3⟩
        · rintro ⟨hmem, hk3⟩
          exact ⟨(Finset.mem_erase.mp hmem).2, hk3⟩
    · -- entry values stay in {0, k, -1}
      intro k
      by_cases hkf : k = fd
      · subst hkf; right; right; exact updFd_self _ _ _
      · rw [updFd_ne _ _ _ _ hkf]; exact hvals k
    · -- no gaps up to the new maxfd
      by_cases hm : fd = s.maxfd
      · rw [if_pos hm]
        intro k hk3 hkle
        by_cases hkf : k = fd
        · subst hkf; rw [updFd_self]; omega
        · rw [updFd_ne _ _ _ _ hkf]
          have hrle :=
            (poll_scan_result s.pfdsFd s.maxfd fd hil h3max hvals hgaps hfdne3).2.2.1
          exact hgaps k hk3 (le_trans hkle hrle)
      · rw [if_neg hm]
        intro k hk3 hkle
        by_cases hkf : k = fd
        · subst hkf; rw [updFd_self]; omega
        · rw [updFd_ne _ _ _ _ hkf]; exact hgaps k hk3 hkle
    · -- new maxfd is an upper bound on registered indices
      by_cases hm : fd = s.maxfd
      · rw [if_pos hm]
        intro k hk1 hk
        by_cases hkf : k = fd
        · subst hkf; rw [updFd_self] at hk; omega
        · have hkorig : s.pfdsFd k = (k : Int) := by
            rwa [updFd_ne _ _ _ _ hkf] at hk
          refine (poll_scan_result s.pfdsFd s.maxfd fd hil h3max hvals hgaps
            hfdne3).2.2.2 k ?_ (hbound k hk1 hkorig)
          rw [updFd_ne _ _ _ _ hkf, hkorig]
          omega
      · rw [if_neg hm]
        intro k hk1 hk
        by_cases hkf : k = fd
        · subst hkf; rw [updFd_self] at hk; omega
        · rw [updFd_ne _ _ _ _ hkf] at hk; exact hbound k hk1 hk

theorem pollReach_inv {s : PollState} (h : PollReach s) : PollInv s := by
  induction h with
  | init => exact pollInv_init
  | step _ hstep ih => exact pollInv_step ih hstep

theorem ltInv_init : LtInv ltInit := by
  refine ⟨⟨?_, ?_, ?_, ?_⟩, ⟨?_, ?_, ?_, ?_⟩, ?_, ?_⟩ <;> decide

theorem ltInv_step {s t : LtState} (hinv : LtInv s) (hstep : LtStep s t) :
    LtInv t := by
  obtain ⟨⟨h0, h1, h2, h4⟩, ⟨n0, n1, n2, n4⟩, hsub, hcli⟩ := hinv
  cases hstep with
  | ev e ar isize hfd har =>
    unfold ltDispatch
    by_cases hacc : e.fd = listenfd ∧ e.epollin = true
    · rw [if_pos hacc]
      cases ar with
      | none => exact ⟨⟨h0, h1, h2, h4⟩, ⟨n0, n1, n2, n4⟩, hsub, hcli⟩
      | some c =>
        obtain ⟨hfree, hlow⟩ := har c rfl
        have hcne : c ≠ 0 ∧ c ≠ 1 ∧ c ≠ 2 ∧ c ≠ 4 :=
          ⟨fun h => hfree (h ▸ h0), fun h => hfree (h ▸ h1),
           fun h => hfree (h ▸ h2), fun h => hfree (h ▸ h4)⟩
        refine ⟨⟨?_, ?_, ?_, ?_⟩, ⟨?_, ?_, ?_, ?_⟩, ?_, ?_⟩
        · exact Finset.mem_insert_of_mem h0
        · exact Finset.mem_insert_of_mem h1
        · exact Finset.mem_insert_of_mem h2
        · exact Finset.mem_insert_of_mem h4
        · intro h
          rcases Finset.mem_insert.mp h with h | h
          · exact hcne.1 h.symm
          · exact n0 h
        · intro h
          rcases Finset.mem_insert.mp h with h | h
          · exact hcne.2.1 h.symm
          · exact n1 h
        · intro h
          rcases Finset.mem_insert.mp h with h | h
          · exact hcne.2.2.1 h.symm
          · exact n2 h
        · intro h
          rcases Finset.mem_insert.mp h with h | h
          · exact hcne.2.2.2 h.symm
          · exact n4 h
        · intro x hx
          rcases Finset.mem_insert.mp hx with rfl | hx
          · exact Finset.mem_insert_self _ _
          · exact Finset.mem_insert_of_mem (hsub hx)
        · intro fd hmem hf0 hf1 hf2 hf4
          rcases Finset.mem_insert.mp hmem with rfl | hmem
          · exact Finset.mem_insert_self _ _
          · exact Finset.mem_insert_of_mem (hcli fd hmem hf0 hf1 hf2 hf4)
    · rw [if_neg hacc]
      by_cases hin : e.epollin = true
      · rw [if_pos hin]
        by_cases hsz : isize ≤ 0
        · rw [if_pos hsz]
          have hne : ∀ x : Nat, x ∈ s.interest → x ≠ 0 ∧ x ≠ 1 ∧ x ≠ 2 ∧ x ≠ 4 :=
            fun x hx => ⟨fun h => n0 (h ▸ hx), fun h => n1 (h ▸ hx),
                         fun h => n2 (h ▸ hx), fun h => n4 (h ▸ hx)⟩
          obtain ⟨hf0, hf1, hf2, hf4⟩ := hne e.fd hfd
          refine ⟨⟨?_, ?_, ?_, ?_⟩, ⟨?_, ?_, ?_, ?_⟩, ?_, ?_⟩
          · exact Finset.mem_erase.mpr ⟨fun h => hf0 h.symm, h0⟩
          · exact Finset.mem_erase.mpr ⟨fun h => hf1 h.symm, h1⟩
          · exact Finset.mem_erase.mpr ⟨fun h => hf2 h.symm, h2⟩
          · exact Finset.mem_erase.mpr ⟨fun h => hf4 h.symm, h4⟩
          · exact fun h => n0 (Finset.mem_erase.mp h).2
          · exact fun h => n1 (Finset.mem_erase.mp h).2
          · exact fun h => n2 (Finset.mem_erase.mp h).2
          · exact fun h => n4 (Finset.mem_erase.mp h).2
          · intro x hx
            have hx' := Finset.mem_erase.mp hx
            exact Finset.mem_erase.mpr ⟨hx'.1, hsub hx'.2⟩
          · intro fd hmem hg0 hg1 hg2 hg4
            have hmem' := Finset.mem_erase.mp hmem
            exact Finset.mem_erase.mpr ⟨hmem'.1, hcli fd hmem'.2 hg0 hg1 hg2 hg4⟩
        · rw [if_neg hsz]
          exact ⟨⟨h0, h1, h2, h4⟩, ⟨n0, n1, n2, n4⟩, hsub, hcli⟩
      · rw [if_neg hin]
        exact ⟨⟨h0, h1, h2, h4⟩, ⟨n0, n1, n2, n4⟩, hsub, hcli⟩

theorem ltReach_inv {s : LtState} (h : LtReach s) : LtInv s := by
  induction h with
  | init => exact ltInv_init
  | step _ hstep ih => exact ltInv_step ih hstep

theorem etInv_init : EtInv etInit := by
  refine ⟨⟨?_, ?_, ?_, ?_⟩, ⟨?_, ?_, ?_, ?_⟩, ?_, ?_⟩ <;> decide

theorem etInv_erase {s : EtState} (fd : Nat) (hfd : fd ∈ s.interest)
    (hinv : EtInv s) (d : Bool) :
    EtInv ⟨s.openFds.erase fd, s.interest.erase fd, d⟩ := by
  obtain ⟨⟨h0, h1, h2, h4⟩, ⟨n0, n1, n2, n4⟩, hsub, hcli⟩ := hinv
  have hne : fd ≠ 0 ∧ fd ≠ 1 ∧ fd ≠ 2 ∧ fd ≠ 4 :=
    ⟨fun h => n0 (h ▸ hfd), fun h => n1 (h ▸ hfd),
     fun h => n2 (h ▸ hfd), fun h => n4 (h ▸ hfd)⟩
  refine ⟨⟨?_, ?_, ?_, ?_⟩, ⟨?_, ?_, ?_, ?_⟩, ?_, ?_⟩
  · exact Finset.mem_erase.mpr ⟨fun h => hne.1 h.symm, h0⟩
  · exact Finset.mem_erase.mpr ⟨fun h => hne.2.1 h.symm, h1⟩
  · exact Finset.mem_erase.mpr ⟨fun h => hne.2.2.1 h.symm, h2⟩
  · exact Finset.mem_erase.mpr ⟨fun h => hne.2.2.2 h.symm, h4⟩
  · exact fun h => n0 (Finset.mem_erase.mp h).2
  · exact fun h => n1 (Finset.mem_erase.mp h).2
  · exact fun h => n2 (Finset.mem_erase.mp h).2
  · exact fun h => n4 (Finset.mem_erase.mp h).2
  · intro x hx
    have hx' := Finset.mem_erase.mp hx
    exact Finset.mem_erase.mpr ⟨hx'.1, hsub hx'.2⟩
  · intro x hmem hg0 hg1 hg2 hg4
    have hmem' := Finset.mem_erase.mp hmem
    exact Finset.mem_erase.mpr ⟨hmem'.1, hcli x hmem'.2 hg0 hg1 hg2 hg4⟩

theorem etInv_step {s t : EtState} (hinv : EtInv s) (hstep : EtStep s t) :
    EtInv t := by
  obtain ⟨⟨h0, h1, h2, h4⟩, ⟨n0, n1, n2, n4⟩, hsub, hcli⟩ := hinv
  cases hstep with
  | ev e ar dend hlive hfd har =>
    unfold etDispatch
    by_cases herr : e.err = true ∨ e.hup = true ∨ ¬ e.epollin = true
    · rw [if_pos herr]
      exact etInv_erase e.fd hfd ⟨⟨h0, h1, h2, h4⟩, ⟨n0, n1, n2, n4⟩, hsub, hcli⟩ s.dead
    · rw [if_neg herr]
      by_cases hl : e.fd = listenfd
      · rw [if_pos hl]
        cases ar with
        | none => exact ⟨⟨h0, h1, h2, h4⟩, ⟨n0, n1, n2, n4⟩, hsub, hcli⟩
        | some c =>
          obtain ⟨hfree, hlow⟩ := har c rfl
          have hcne : c ≠ 0 ∧ c ≠ 1 ∧ c ≠ 2 ∧ c ≠ 4 :=
            ⟨fun h => hfree (h ▸ h0), fun h => hfree (h ▸ h1),
             fun h => hfree (h ▸ h2), fun h => hfree (h ▸ h4)⟩
          refine ⟨⟨?_, ?_, ?_, ?_⟩, ⟨?_, ?_, ?_, ?_⟩, ?_, ?_⟩
          · exact Finset.mem_insert_of_mem h0
          · exact Finset.mem_insert_of_mem h1
          · exact Finset.mem_insert_of_mem h2
          · exact Finset.mem_insert_of_mem h4
          · intro h
            rcases Finset.mem_insert.mp h with h | h
            · exact hcne.1 h.symm
            · exact n0 h
          · intro h
            rcases Finset.mem_insert.mp h with h | h
            · exact hcne.2.1 h.symm
            · exact n1 h
          · intro h
            rcases Finset.mem_insert.mp h with h | h
            · exact hcne.2.2.1 h.symm
            · exact n2 h
          · intro h
            rcases Finset.mem_insert.mp h with h | h
            · exact hcne.2.2.2 h.symm
            · exact n4 h
          · intro x hx
            rcases Finset.mem_insert.mp hx with rfl | hx
            · exact Finset.mem_insert_self _ _
            · exact Finset.mem_insert_of_mem (hsub hx)
          · intro fd hmem hg0 hg1 hg2 hg4
            rcases Finset.mem_insert.mp hmem with rfl | hmem
            · exact Finset.mem_insert_self _ _
            · exact Finset.mem_insert_of_mem (hcli fd hmem hg0 hg1 hg2 hg4)
      · rw [if_neg hl]
        cases dend with
        | eagain => exact ⟨⟨h0, h1, h2, h4⟩, ⟨n0, n1, n2, n4⟩, hsub, hcli⟩
        | eof =>
          exact etInv_erase e.fd hfd
            ⟨⟨h0, h1, h2, h4⟩, ⟨n0, n1, n2, n4⟩, hsub, hcli⟩ s.dead
        | fatal => exact ⟨⟨h0, h1, h2, h4⟩, ⟨n0, n1, n2, n4⟩, hsub, hcli⟩

theorem etReach_inv {s : EtState} (h : EtReach s) : EtInv s := by
  induction h with
  | init => exact etInv_init
  | step _ hstep ih => exact etInv_step ih hstep

/-- A NUL-free list followed by a NUL is cut back to exactly itself by
`strlen`-style truncation. -/
theorem takeWhile_append_zero (c tail : List Nat) (hnz : ∀ b ∈ c, b ≠ 0) :
    (c ++ 0 :: tail).takeWhile (fun b => b != 0) = c := by
  induction c with
  | nil => simp [List.takeWhile]
  | cons a c ih =>
    have ha : a ≠ 0 := hnz a (by simp)
    have hrest : ∀ b ∈ c, b ≠ 0 := fun b hb => hnz b (by simp [hb])
    simp only [List.cons_append]
    rw [List.takeWhile_cons_of_pos (by simpa using ha), ih hrest]

/-- The reads performed by the drain loop consume the whole pending byte
queue whenever the fuel covers its length, regardless of buffer residue. -/
theorem etDrainFuel_reads_all :
    ∀ (n : Nat) (buf pending : List Nat), pending.length ≤ n →
      ((etDrainFuel n buf pending).map Prod.fst).flatten = pending := by
  intro n
  induction n with
  | zero =>
    intro buf pending hlen
    cases pending with
    | nil => simp only [etDrainFuel, List.map_nil, List.flatten_nil]
    | cons a rest => simp only [List.length_cons] at hlen; omega
  | succ k ih =>
    intro buf pending hlen
    cases pending with
    | nil => simp only [etDrainFuel, List.map_nil, List.flatten_nil]
    | cons a rest =>
      simp only [etDrainFuel, List.map_cons, List.flatten_cons]
      rw [ih _ ((a :: rest).drop ET_BUFSIZE)
        (by simp only [ET_BUFSIZE, List.length_drop, List.length_cons] at hlen ⊢; omega)]
      exact List.take_append_drop _ _

/-- A level-triggered handler echoes a NUL-free chunk shorter than the
buffer exactly. -/
theorem echoedOfChunk_exact (c : List Nat) (hlen : c.length < LT_BUFSIZE)
    (hnz : ∀ b ∈ c, b ≠ 0) : echoedOfChunk LT_BUFSIZE c = c := by
  unfold echoedOfChunk
  have hpad : LT_BUFSIZE - c.length = (LT_BUFSIZE - c.length - 1) + 1 := by
    unfold LT_BUFSIZE at *; omega
  rw [hpad, List.replicate_succ]
  exact takeWhile_append_zero c _ hnz

/-- A nonempty NUL-free burst shorter than the 5-byte buffer is drained in
one read and echoed exactly by the edge-triggered handler. -/
theorem etDrain_small (pending : List Nat) (hne : pending ≠ [])
    (hlen : pending.length < ET_BUFSIZE) (hnz : ∀ b ∈ pending, b ≠ 0) :
    etDrain (List.replicate ET_BUFSIZE 0) pending = [(pending, some pending)] := by
  cases pending with
  | nil => exact absurd rfl hne
  | cons a rest =>
    have hlen' : (a :: rest).length ≤ ET_BUFSIZE := le_of_lt hlen
    have htake : (a :: rest).take ET_BUFSIZE = a :: rest :=
      List.take_of_length_le hlen'
    have hdrop : (a :: rest).drop ET_BUFSIZE = [] :=
      List.drop_eq_nil_of_le hlen'
    have hbufdrop : (List.replicate ET_BUFSIZE (0 : Nat)).drop (a :: rest).length =
        List.replicate (ET_BUFSIZE - (a :: rest).length) 0 := by
      simp [List.drop_replicate]
    have hpad : ET_BUFSIZE - (a :: rest).length =
        (ET_BUFSIZE - (a :: rest).length - 1) + 1 := by
      simp only [ET_BUFSIZE, List.length_cons] at *; omega
    show etDrainFuel (a :: rest).length (List.replicate ET_BUFSIZE 0) (a :: rest) =
      [(a :: rest, some (a :: rest))]
    rw [List.length_cons, etDrainFuel, htake, hdrop, hbufdrop, hpad,
      List.replicate_succ]
    have hnil : etDrainFuel rest.length
        ((a :: rest) ++ 0 :: List.replicate (ET_BUFSIZE - (a :: rest).length - 1) 0)
        [] = [] := by
      cases rest.length with
      | zero => rfl
      | succ m => rfl
    rw [hnil]
    unfold etEchoChunk
    rw [if_pos (by simp), takeWhile_append_zero _ _ hnz]

theorem selW1_reach : SelReach selW1 :=
  SelReach.step SelReach.init (SelStep.acceptOk selInit 4 (by decide) (by decide))

theorem ltW1_reach : LtReach ltW1 :=
  LtReach.step LtReach.init
    (LtStep.ev ltInit ⟨3, true⟩ (some 5) 1 (by decide)
      (fun c hc => by cases hc; exact ⟨by decide, by decide⟩))

theorem etW_reach : EtReach etW :=
  EtReach.step EtReach.init
    (EtStep.ev etInit ⟨3, false, false, true⟩ (some 5) EtDrainEnd.eagain rfl
      (by decide)
      (fun c hc => by cases hc; exact ⟨by decide, by decide⟩))

/-! ## Claim theorems -/

/-- C1 is false as stated: a client that writes the single byte 0x00 gets
nothing echoed back, because the echo write is
`write(eventfd, buffer, strlen(buffer))` (selectserverdemo.cpp line 156) —
`strlen` of the zeroed buffer holding a NUL chunk is 0, so the byte count is
not preserved. -/
theorem claim_C1_counterexample :
    echoedOfChunk LT_BUFSIZE [0] = [] ∧ ([] : List Nat) ≠ [0] := by
  constructor
  · decide
  · decide

/-- C1 amended: the echo is byte-for-byte only for NUL-free traffic.  In the
level-triggered variants every read chunk that is nonempty, NUL-free and
shorter than the 1024-byte buffer is echoed exactly, so the concatenation
over any such sequence of reads is preserved; in the edge-triggered variant
a nonempty NUL-free burst shorter than its 5-byte buffer is drained and
echoed exactly.  A chunk containing a NUL byte is truncated at it. -/
theorem claim_C1 (chunks : List (List Nat))
    (h : ∀ c ∈ chunks, c ≠ [] ∧ c.length < LT_BUFSIZE ∧ ∀ b ∈ c, b ≠ 0) :
    (chunks.map (echoedOfChunk LT_BUFSIZE)).flatten = chunks.flatten ∧
    ∀ pending : List Nat, pending ≠ [] → pending.length < ET_BUFSIZE →
      (∀ b ∈ pending, b ≠ 0) →
      etDrain (List.replicate ET_BUFSIZE 0) pending = [(pending, some pending)] := by
  constructor
  · induction chunks with
    | nil => rfl
    | cons c cs ih =>
      simp only [List.map_cons, List.flatten_cons]
      have hc := h c (by simp)
      rw [echoedOfChunk_exact c hc.2.1 hc.2.2,
        ih (fun d hd => h d (by simp [hd]))]
  · intro pending hne hlen hnz
    exact etDrain_small pending hne hlen hnz

/-- Witness for C1 at the concrete read sequence `[[1,2],[7]]`. -/
theorem claim_C1_witness :
    (∀ c ∈ ([[1, 2], [7]] : List (List Nat)),
        c ≠ [] ∧ c.length < LT_BUFSIZE ∧ ∀ b ∈ c, b ≠ 0) ∧
    (([[1, 2], [7]] : List (List Nat)).map (echoedOfChunk LT_BUFSIZE)).flatten =
      ([[1, 2], [7]] : List (List Nat)).flatten :=
  ⟨by decide, (claim_C1 [[1, 2], [7]] (by decide)).1⟩

/-- C2 is false as stated: a six-byte burst of NUL bytes (exceeding the
5-byte buffer) is fully read by the drain loop but the echoed byte total is
zero, because each `write` sends `strlen(buffer)` = 0 bytes — so the handler
does not "read and echo" all pending data. -/
theorem claim_C2_counterexample :
    ET_BUFSIZE < ([0, 0, 0, 0, 0, 0] : List Nat).length ∧
    echoedJoin (etDrain (List.replicate ET_BUFSIZE 0) [0, 0, 0, 0, 0, 0]) =
      some [] ∧
    ([] : List Nat) ≠ [0, 0, 0, 0, 0, 0] := by
  refine ⟨by decide, by decide, by decide⟩

/-- C2 amended: the drain loop does read all of the pending data within one
handler invocation (looping until the read would block), so no data is left
unread by under-draining; the bytes echoed back, however, are the
`strlen`-truncated buffer contents and can differ from the data read. -/
theorem claim_C2 (pending : List Nat) :
    ((etDrain (List.replicate ET_BUFSIZE 0) pending).map Prod.fst).flatten =
      pending :=
  etDrainFuel_reads_all pending.length _ pending le_rfl

/-- C3: in every reachable state of the select machine, `maxfd` is the
greatest watched descriptor, and in every reachable state of the poll
machine, `maxfd` is the greatest index registered at itself in `pfds`
(3, the listener, when no clients are registered — it is registered and is
the least such index). -/
theorem claim_C3 :
    (∀ s : SelState, SelReach s →
        s.maxfd ∈ s.fdset ∧ ∀ x ∈ s.fdset, x ≤ s.maxfd) ∧
    (∀ s : PollState, PollReach s →
        s.pfdsFd s.maxfd = (s.maxfd : Int) ∧
        ∀ k : Nat, 1 ≤ k → s.pfdsFd k = (k : Int) → k ≤ s.maxfd) := by
  constructor
  · intro s hs
    obtain ⟨-, -, -, -, -, hmax, hbound⟩ := selReach_inv hs
    exact ⟨hmax, hbound⟩
  · intro s hs
    obtain ⟨-, -, -, hmax, -, -, -, hbound⟩ := pollReach_inv hs
    exact ⟨hmax, hbound⟩

/-- Witness for C3 at a select state with one client accepted and at the
initial poll state. -/
theorem claim_C3_witness :
    (SelReach selW1 ∧ selW1.maxfd ∈ selW1.fdset ∧
      ∀ x ∈ selW1.fdset, x ≤ selW1.maxfd) ∧
    (PollReach pollInit ∧ pollInit.pfdsFd pollInit.maxfd = (pollInit.maxfd : Int) ∧
      ∀ k : Nat, 1 ≤ k → pollInit.pfdsFd k = (k : Int) → k ≤ pollInit.maxfd) :=
  ⟨⟨selW1_reach, (claim_C3.1 selW1 selW1_reach).1, (claim_C3.1 selW1 selW1_reach).2⟩,
   ⟨PollReach.init, (claim_C3.2 pollInit PollReach.init).1,
    (claim_C3.2 pollInit PollReach.init).2⟩⟩

/-- C4 is false as stated: a fatal wait failure does not exit non-zero — the
`break` at selectserverdemo.cpp line 72 leaves the loop and falls through to
`return 0` at line 161. -/
theorem claim_C4_counterexample : selectExitCode ExitReason.waitError = 0 := rfl

/-- C4 amended: setup failures (bad argument count, listener initialization
failure) exit -1 in every variant; a fatal wait failure breaks the loop and
the process exits 0; the edge-triggered variant additionally exits 1 on a
non-EAGAIN client read error. -/
theorem claim_C4 :
    selectExitCode ExitReason.badArgs = -1 ∧
    selectExitCode ExitReason.initFail = -1 ∧
    selectExitCode ExitReason.waitError = 0 ∧
    pollExitCode ExitReason.badArgs = -1 ∧
    pollExitCode ExitReason.initFail = -1 ∧
    pollExitCode ExitReason.waitError = 0 ∧
    epollLtExitCode ExitReason.badArgs = -1 ∧
    epollLtExitCode ExitReason.initFail = -1 ∧
    epollLtExitCode ExitReason.waitError = 0 ∧
    etExitCode EtExitReason.badArgs = -1 ∧
    etExitCode EtExitReason.initFail = -1 ∧
    etExitCode EtExitReason.waitError = 0 ∧
    etExitCode EtExitReason.clientReadError = 1 := by
  refine ⟨rfl, rfl, rfl, rfl, rfl, rfl, rfl, rfl, rfl, rfl, rfl, rfl, rfl⟩

/-- C5 is false as stated: at the reachable edge-triggered state with client
5, a non-EAGAIN read error on that client terminates the whole process
(`return 1`, epollETserverdemo.cpp line 180) instead of closing just that
connection. -/
theorem claim_C5_counterexample :
    EtReach etW ∧ etW.dead = false ∧
    (etDispatch etW ⟨5, false, false, true⟩ none EtDrainEnd.fatal).dead = true ∧
    etExitCode EtExitReason.clientReadError = 1 :=
  ⟨etW_reach, rfl, by decide, rfl⟩

/-- C5 amended: peer-closed events and backend-reported hangup/error flags
terminate only the affected connection — close plus deregistration in one
step — and the loop continues; but in the edge-triggered variant a
non-EAGAIN read error terminates the whole process with exit status 1. -/
theorem claim_C5 :
    (∀ (s : LtState) (e : LtEvent) (ar : Option Nat) (i : Int),
        e.epollin = true → ¬ e.fd = listenfd → i ≤ 0 →
        ltDispatch s e ar i =
          (⟨s.openFds.erase e.fd, s.interest.erase e.fd⟩,
           [LtAction.readCall e.fd, LtAction.epollDel e.fd,
            LtAction.closeCall e.fd])) ∧
    (∀ (s : EtState) (e : EtEvent) (ar : Option Nat),
        e.err = false → e.hup = false → e.epollin = true → ¬ e.fd = listenfd →
        etDispatch s e ar EtDrainEnd.eof =
          ⟨s.openFds.erase e.fd, s.interest.erase e.fd, s.dead⟩) ∧
    (∀ (s : EtState) (e : EtEvent) (ar : Option Nat) (d : EtDrainEnd),
        e.err = true →
        etDispatch s e ar d =
          ⟨s.openFds.erase e.fd, s.interest.erase e.fd, s.dead⟩) ∧
    (∀ (s : EtState) (e : EtEvent) (ar : Option Nat),
        e.err = false → e.hup = false → e.epollin = true → ¬ e.fd = listenfd →
        (etDispatch s e ar EtDrainEnd.fatal).dead = true) := by
  refine ⟨?_, ?_, ?_, ?_⟩
  · intro s e ar i h1 h2 h3
    unfold ltDispatch
    rw [if_neg (fun hc => h2 hc.1), if_pos h1, if_pos h3]
  · intro s e ar herr hhup hin hl
    unfold etDispatch
    rw [if_neg (by simp [herr, hhup, hin]), if_neg hl]
  · intro s e ar d herr
    unfold etDispatch
    rw [if_pos (Or.inl herr)]
  · intro s e ar herr hhup hin hl
    unfold etDispatch
    rw [if_neg (by simp [herr, hhup, hin]), if_neg hl]

/-- Witness for C5 at concrete events on client 5. -/
theorem claim_C5_witness :
    ((⟨5, true⟩ : LtEvent).epollin = true ∧
      ltDispatch ltInit ⟨5, true⟩ none 0 =
        (⟨ltInit.openFds.erase 5, ltInit.interest.erase 5⟩,
         [LtAction.readCall 5, LtAction.epollDel 5, LtAction.closeCall 5])) ∧
    ((⟨5, false, false, true⟩ : EtEvent).err = false ∧
      (etDispatch etInit ⟨5, false, false, true⟩ none EtDrainEnd.fatal).dead
        = true) :=
  ⟨⟨rfl, claim_C5.1 ltInit ⟨5, true⟩ none 0 rfl (by decide) (by decide)⟩,
   ⟨rfl, claim_C5.2.2.2 etInit ⟨5, false, false, true⟩ none rfl rfl rfl
      (by decide)⟩⟩

/-- C6: the code is wrong at exactly the capacity boundary.  The guard at
pollserverdemo.cpp line 103 is `clientsock > MAXNFDS`, so a client
descriptor equal to MAXNFDS (1024) is not rejected and gets registered at
`pfds[1024]` — one past the end of the 1024-element array (valid indices
are 0..1023), an out-of-bounds write, contradicting the documented
close-at-or-beyond-capacity behaviour. -/
theorem claim_C6 :
    pollAcceptHandle MAXNFDS = PollAcceptFate.registerAt MAXNFDS ∧
    ¬ MAXNFDS < MAXNFDS := by
  constructor
  · rfl
  · decide

/-- C7: the code is wrong in the level-triggered variant.  Its dispatch loop
`for (int i = 0; i <= readyfds; i++)` (epollserverdemo.cpp line 102)
examines index `readyfds` itself, which is outside the `readyfds` entries
filled by `epoll_wait`; the edge-triggered loop `i < readyfds` stays within
the report. -/
theorem claim_C7 :
    ∀ n : Nat, n ∈ ltLoopIndices n ∧ n ∉ reportIndices n ∧
      ∀ i ∈ etLoopIndices n, i ∈ reportIndices n := by
  intro n
  refine ⟨?_, ?_, ?_⟩
  · simp [ltLoopIndices, List.mem_range]
  · simp [reportIndices, List.mem_range]
  · intro i hi
    simpa [etLoopIndices, reportIndices] using hi

/-- C8: in every reachable state of the select, level-triggered and
edge-triggered machines, every watched descriptor is open (close and
deregistration happen in the same handler step, so no watched-but-closed
state is ever observable and no dispatched operation acts on a closed
handle) and, conversely, every open descriptor other than stdio and the
epoll instance is watched (no deregistration is left pending under a stale
open handle). -/
theorem claim_C8 :
    (∀ s : SelState, SelReach s →
        s.fdset ⊆ s.openFds ∧ ∀ fd ∈ s.openFds, 3 ≤ fd → fd ∈ s.fdset) ∧
    (∀ s : LtState, LtReach s →
        s.interest ⊆ s.openFds ∧
        ∀ fd ∈ s.openFds, fd ≠ 0 → fd ≠ 1 → fd ≠ 2 → fd ≠ epollfd →
          fd ∈ s.interest) ∧
    (∀ s : EtState, EtReach s →
        s.interest ⊆ s.openFds ∧
        ∀ fd ∈ s.openFds, fd ≠ 0 → fd ≠ 1 → fd ≠ 2 → fd ≠ epollfd →
          fd ∈ s.interest) := by
  refine ⟨?_, ?_, ?_⟩
  · intro s hs
    obtain ⟨-, -, hsub, hcli, -, -, -⟩ := selReach_inv hs
    exact ⟨hsub, hcli⟩
  · intro s hs
    obtain ⟨-, -, hsub, hcli⟩ := ltReach_inv hs
    exact ⟨hsub, hcli⟩
  · intro s hs
    obtain ⟨-, -, hsub, hcli⟩ := etReach_inv hs
    exact ⟨hsub, hcli⟩

/-- Witness for C8 at reachable states of the three machines with one
accepted client each. -/
theorem claim_C8_witness :
    (SelReach selW1 ∧ selW1.fdset ⊆ selW1.openFds) ∧
    (LtReach ltW1 ∧ ltW1.interest ⊆ ltW1.openFds) ∧
    (EtReach etW ∧ etW.interest ⊆ etW.openFds) :=
  ⟨⟨selW1_reach, (claim_C8.1 selW1 selW1_reach).1⟩,
   ⟨ltW1_reach, (claim_C8.2.1 ltW1 ltW1_reach).1⟩,
   ⟨etW_reach, (claim_C8.2.2 etW etW_reach).1⟩⟩

/-- C9 is false as stated: the accept branches of the select, poll and
level-triggered variants contain no non-blocking configuration at all
(`set_nonblocking` exists only in epollETserverdemo.cpp). -/
theorem claim_C9_counterexample :
    SetupAction.setNonblocking ∉ ltAcceptActions ∧
    SetupAction.setNonblocking ∉ selectAcceptActions ∧
    SetupAction.setNonblocking ∉ pollAcceptActions := by
  refine ⟨by decide, by decide, by decide⟩

/-- C9 amended: only the edge-triggered variant configures an accepted
client non-blocking, and it does so before arming it; in the epoll variants
the client is armed with exactly the listener's trigger flags
(`EPOLLIN | EPOLLET` in the edge-triggered variant, `EPOLLIN` in the
level-triggered one); the other variants register clients still in blocking
mode. -/
theorem claim_C9 :
    etAcceptActions =
      [SetupAction.setNonblocking, SetupAction.epollAdd etClientFlags] ∧
    etClientFlags = etListenerFlags ∧
    ltAcceptActions = [SetupAction.epollAdd ltClientFlags] ∧
    ltClientFlags = ltListenerFlags ∧
    SetupAction.setNonblocking ∉ selectAcceptActions ∧
    SetupAction.setNonblocking ∉ pollAcceptActions ∧
    SetupAction.setNonblocking ∉ ltAcceptActions ∧
    SetupAction.setNonblocking ∈ etListenerSetup := by
  refine ⟨rfl, rfl, rfl, rfl, by decide, by decide, by decide, by decide⟩

/-- C10: a level-triggered event whose flags lack EPOLLIN matches neither
branch of the dispatch (epollserverdemo.cpp lines 105 and 137): no system
call is issued and the state is exactly unchanged. -/
theorem claim_C10 (s : LtState) (e : LtEvent) (ar : Option Nat) (i : Int)
    (h : e.epollin = false) : ltDispatch s e ar i = (s, []) := by
  unfold ltDispatch
  rw [if_neg (by simp [h]), if_neg (by simp [h])]

/-- Witness for C10 at a concrete EPOLLIN-free event. -/
theorem claim_C10_witness :
    ((⟨7, false⟩ : LtEvent).epollin = false) ∧
    ltDispatch ltInit ⟨7, false⟩ none 0 = (ltInit, []) :=
  ⟨rfl, claim_C10 ltInit ⟨7, false⟩ none 0 rfl⟩
